import Mathlib

/-!
Shallow embedding of the Agentry event-log analyzer
(`ProcessEvent.log.py`): the `EventPattern` hierarchy, tree assembly,
the matching/aggregation engine (`mainMatchEvent` / `matchEvent` /
`addEvent`) and the report serializer (`__str__`).

Python's `re` engine is treated as an external collaborator: a compiled
regular expression is a `Regex` value carrying its source text, its list
of named capture groups (`groupindex` order) and an abstract anchored
matcher `matchFn` returning, on success, the captured substring of each
named group (`none` for a group that did not participate in the match).
-/

namespace ProcessEventLog

/-- A compiled regular expression, as the engine sees it: `pattern` is the
source text, `groupNames` the named groups in `groupindex` order, and
`matchFn msg` is `re.match` — `none` on failure, otherwise the capture of
each named group, aligned with `groupNames`. -/
structure Regex where
  pattern : String
  groupNames : List String
  matchFn : String → Option (List (Option String))

/-- A parsed log line (class `Event`): integer type code and the
identifier fields copied from the line, plus the trimmed message. -/
structure Event where
  type : Nat
  group : String
  id : String
  thread : String
  message : String

/-- A node of the pattern hierarchy (class `EventPattern`), with the same
fields in `__init__` order: `patternId`, `name`, `regEx`, `groupNames`,
`groupValues` (one distinct-value set per named group, modelled as a
duplicate-free list), `parentId`, `events` (the recorded events;
`matchCount` is its length), `subPatterns`. -/
inductive EventPattern where
  | node (patternId : String) (name : String) (regEx : Regex)
      (groupNames : List String) (groupValues : List (List String))
      (parentId : String) (events : List Event)
      (subPatterns : List EventPattern)

def EventPattern.patternId : EventPattern → String
  | .node pid _ _ _ _ _ _ _ => pid

def EventPattern.name : EventPattern → String
  | .node _ nm _ _ _ _ _ _ => nm

def EventPattern.regEx : EventPattern → Regex
  | .node _ _ rx _ _ _ _ _ => rx

def EventPattern.groupNames : EventPattern → List String
  | .node _ _ _ gns _ _ _ _ => gns

def EventPattern.groupValues : EventPattern → List (List String)
  | .node _ _ _ _ gvs _ _ _ => gvs

def EventPattern.parentId : EventPattern → String
  | .node _ _ _ _ _ par _ _ => par

def EventPattern.events : EventPattern → List Event
  | .node _ _ _ _ _ _ evs _ => evs

def EventPattern.subPatterns : EventPattern → List EventPattern
  | .node _ _ _ _ _ _ _ subs => subs

/-- Default pattern value, used only as the out-of-range default of
list lookups in theorem statements. -/
def dfltPattern : EventPattern :=
  .node "" "" ⟨"", [], fun _ => none⟩ [] [] "" [] []

instance : Inhabited EventPattern := ⟨dfltPattern⟩

/-- `set.add`: the distinct-value sets of `groupValues` are modelled as
lists without duplicates; adding an element already present is a no-op. -/
def setInsert (s : List String) (v : String) : List String :=
  if v ∈ s then s else s ++ [v]

/-- The value stored for a named group: the captured substring, or the
literal placeholder `"-None-"` when the group did not participate. -/
def groupValueOf (c : Option String) : String := c.getD "-None-"

/-- The loop body of `addEvent`: for each pair (group name, capture) of
the match, insert the (placeholder-defaulted) value into the value set
at index `groupNames.index ng` — `gns` is the node's `groupNames`. -/
def updateGroups (gns : List String) :
    List (List String) → List (String × Option String) → List (List String)
  | gvs, [] => gvs
  | gvs, (ng, c) :: rest =>
    updateGroups gns
      (gvs.set (gns.indexOf ng)
        (setInsert (gvs.getD (gns.indexOf ng) []) (groupValueOf c)))
      rest

/-- `EventPattern.addEvent(self, event, match)`: append the event to
`self.events` and fold every named-group capture of the match into the
node's value sets. `caps` is the capture list of the match, aligned with
the regex's `groupNames` (the keys of `match.groupdict()`). -/
def addEvent : EventPattern → Event → List (Option String) → EventPattern
  | .node pid nm rx gns gvs par evs subs, e, caps =>
    .node pid nm rx gns
      (updateGroups gns gvs (rx.groupNames.zip caps)) par (evs ++ [e]) subs

mutual

/-- `EventPattern.matchEvent(self, event)`: re-match the node's regex on
the message; on failure return `None`; otherwise try the sub-patterns in
order, returning the first sub-pattern that accepts (note the source
returns the immediate child `p`, not the deep result `ret`); if no
sub-pattern accepts, record the event here and return `self`.
The pure rendering returns the updated node paired with the `patternId`
of the returned node (`none` for Python's `None`). -/
def matchEvent : EventPattern → Event → EventPattern × Option String
  | .node pid nm rx gns gvs par evs subs, e =>
    match rx.matchFn e.message with
    | none => (.node pid nm rx gns gvs par evs subs, none)
    | some caps =>
      match matchEventList subs e with
      | (subs2, some cid) => (.node pid nm rx gns gvs par evs subs2, some cid)
      | (subs2, none) =>
        (addEvent (.node pid nm rx gns gvs par evs subs2) e caps, some pid)

/-- The `for p in self.subPatterns` loop of `matchEvent`: first
sub-pattern whose `matchEvent` is not `None` wins; the loop returns that
sub-pattern `p` itself and leaves the later siblings untouched. -/
def matchEventList : List EventPattern → Event → List EventPattern × Option String
  | [], _ => ([], none)
  | p :: ps, e =>
    match matchEvent p e with
    | (p2, some _) => (p2 :: ps, some p.patternId)
    | (p2, none) =>
      match matchEventList ps e with
      | (ps2, r) => (p2 :: ps2, r)

end

/-- The `for p in EventPattern._patterns` loop of `mainMatchEvent`: skip
roots whose regex fails; on the first root that matches, descend through
`matchEvent` when it has sub-patterns (returning its result when not
`None`), otherwise record at the root and return it. -/
def mainMatchList : List EventPattern → Event → List EventPattern × Option String
  | [], _ => ([], none)
  | p :: ps, e =>
    match p.regEx.matchFn e.message with
    | none =>
      match mainMatchList ps e with
      | (ps2, r) => (p :: ps2, r)
    | some caps =>
      if p.subPatterns.length > 0 then
        match matchEvent p e with
        | (p2, some sp) => (p2 :: ps, some sp)
        | (p2, none) => (addEvent p2 e caps :: ps, some p.patternId)
      else
        (addEvent p e caps :: ps, some p.patternId)

/-- `EventPattern.mainMatchEvent(event)`: apply the global type filter
first (a filtered-out event is matched to nothing), then run the root
loop over the forest. -/
def mainMatchEvent (typeFilter : Option Nat) (pats : List EventPattern)
    (e : Event) : List EventPattern × Option String :=
  match typeFilter with
  | some t => if e.type ≠ t then (pats, none) else mainMatchList pats e
  | none => mainMatchList pats e

/-- The event loop of `mainLoop`: feed each parsed event of the stream
through `mainMatchEvent`, threading the forest state. -/
def processEvents (typeFilter : Option Nat) :
    List EventPattern → List Event → List EventPattern
  | pats, [] => pats
  | pats, e :: es => processEvents typeFilter (mainMatchEvent typeFilter pats e).1 es

/-! ### Tree assembly (`__init__`, `addSubPattern`, `findSubPatternWithId`,
`loadCsvFile`) -/

/-- One row of the pattern-configuration table: columns `Name`,
`MessageRegEx` (already compiled by the external engine) and `parent`. -/
structure PatternRow where
  name : String
  messageRegEx : Regex
  parent : String

/-- `EventPattern.__init__` before the attach step: `patternId` and
`name` are the row's name, `groupNames` enumerates the compiled regex's
named groups, `groupValues` starts as one empty set per group, `events`
and `subPatterns` start empty. -/
def newPattern (row : PatternRow) : EventPattern :=
  .node row.name row.name row.messageRegEx row.messageRegEx.groupNames
    (row.messageRegEx.groupNames.map fun _ => []) row.parent [] []

mutual

/-- One root's turn in `addSubPattern`: attach `child` under this node
if its `parentId` equals the node's `patternId`, else search the
sub-patterns depth-first the way `findSubPatternWithId` does, appending
`child` to the sub-pattern list of the first node found; `none` when the
parent id occurs nowhere in this tree. -/
def attachInTree : EventPattern → EventPattern → Option EventPattern
  | .node pid nm rx gns gvs par evs subs, child =>
    if child.parentId = pid then
      some (.node pid nm rx gns gvs par evs (subs ++ [child]))
    else
      match attachInList subs child with
      | some subs2 => some (.node pid nm rx gns gvs par evs subs2)
      | none => none

/-- The search order of `addSubPattern` / `findSubPatternWithId` over a
list of trees: each tree's own id first, then its descendants in
preorder, then the next tree. -/
def attachInList : List EventPattern → EventPattern → Option (List EventPattern)
  | [], _ => none
  | p :: ps, child =>
    match attachInTree p child with
    | some p2 => some (p2 :: ps)
    | none =>
      match attachInList ps child with
      | some ps2 => some (p :: ps2)
      | none => none

end

/-- `EventPattern.addSubPattern(pattern)` over the `_patterns` forest:
the updated forest and the `ret` flag; a child whose parent id is found
nowhere leaves the forest unchanged (`ret = False`). -/
def addSubPattern (forest : List EventPattern) (child : EventPattern) :
    List EventPattern × Bool :=
  match attachInList forest child with
  | some f2 => (f2, true)
  | none => (forest, false)

/-- The tail of `EventPattern.__init__`: a row with a non-empty parent
id goes through `addSubPattern` (and is silently dropped when that
fails); a row with an empty parent id becomes a new root. -/
def insertPattern (forest : List EventPattern) (row : PatternRow) :
    List EventPattern :=
  let p := newPattern row
  if row.parent.length > 0 then (addSubPattern forest p).1
  else forest ++ [p]

/-- `EventPattern.loadCsvFile`: construct one pattern per row, in row
order, starting from an empty forest. -/
def loadPatterns (rows : List PatternRow) : List EventPattern :=
  rows.foldl insertPattern []

mutual

/-- Whether some node of the tree has the given `patternId`. -/
def treeHasId (s : String) : EventPattern → Bool
  | .node pid _ _ _ _ _ _ subs => pid = s || listHasId s subs

/-- Whether some node of the forest has the given `patternId`. -/
def listHasId (s : String) : List EventPattern → Bool
  | [] => false
  | p :: ps => treeHasId s p || listHasId s ps

end

mutual

/-- Whether some node of the tree with id `parentId` has an immediate
child with id `childId`. -/
def treeChildUnder (parentId childId : String) : EventPattern → Bool
  | .node pid _ _ _ _ _ _ subs =>
    decide (pid = parentId ∧ childId ∈ subs.map EventPattern.patternId)
      || listChildUnder parentId childId subs

/-- Forest version of `treeChildUnder`. -/
def listChildUnder (parentId childId : String) : List EventPattern → Bool
  | [] => false
  | p :: ps => treeChildUnder parentId childId p || listChildUnder parentId childId ps

end

/-! ### Reporting (`__str__`) -/

/-- Python's `'{0:4d}'.format`: decimal digits left-padded with spaces
to a minimum width of four. -/
def pad4 (k : Nat) : String :=
  let s := toString k
  if s.length < 4 then String.mk (List.replicate (4 - s.length) ' ') ++ s else s

/-- The group loop of `__str__`, including its index counter `i`, which
the source does not advance when a leading-underscore group is skipped
in non-detail mode. -/
def groupLines (showDetail : Bool) (gvs : List (List String)) :
    List String → Nat → String
  | [], _ => ""
  | n :: ns, i =>
    if n.front = '_' ∧ ¬ showDetail then groupLines showDetail gvs ns i
    else
      let vs := gvs.getD i []
      let values := if vs.length > 0 then String.intercalate ", " vs else ""
      "  " ++ n ++ " (" ++ toString vs.length ++ "): " ++ values ++ "\n"
        ++ groupLines showDetail gvs ns (i + 1)

mutual

/-- `EventPattern.__str__`: empty output for a zero-occurrence childless
node unless `showDetail`; otherwise a header line with the occurrence
count, name and regex source, the group lines, then the sub-patterns in
order. -/
def epToString (showDetail : Bool) : EventPattern → String
  | .node _ nm rx gns gvs _ evs subs =>
    if evs.length = 0 ∧ ¬ showDetail ∧ subs.length = 0 then ""
    else
      "*** " ++ pad4 evs.length ++ "x " ++ nm ++ " - " ++ rx.pattern ++ "\n"
        ++ groupLines showDetail gvs gns 0 ++ epListToString showDetail subs

/-- The `for p in self.subPatterns` concatenation at the end of
`__str__`. -/
def epListToString (showDetail : Bool) : List EventPattern → String
  | [] => ""
  | p :: ps => epToString showDetail p ++ epListToString showDetail ps

end

/-! ### A pure selector for the matching traversal

`selectPath` / `selectPathList` compute, without mutating anything, the
position of the node at which `matchEvent` records an event: at each
level the first sibling (in declaration order) whose regex matches the
message wins, descending until no sub-pattern matches.  The theorems
below prove that the stateful engine is exactly `record at the selected
position`. -/

mutual

/-- Position (as a child-index path, `[]` meaning this node) of the node
at which `matchEvent self event` records the event; `none` when the
node's own regex does not match. -/
def selectPath : EventPattern → Event → Option (List Nat)
  | .node _ _ rx _ _ _ _ subs, e =>
    match rx.matchFn e.message with
    | none => none
    | some _ =>
      match selectPathList subs e with
      | some (i, q) => some (i :: q)
      | none => some []

/-- First sibling index accepting the event, with the path inside it. -/
def selectPathList : List EventPattern → Event → Option (Nat × List Nat)
  | [], _ => none
  | p :: ps, e =>
    match selectPath p e with
    | some q => some (0, q)
    | none => (selectPathList ps e).map fun iq => (iq.1 + 1, iq.2)

end

/-- The selector with the global type filter of `mainMatchEvent` in
front: the full forest-level path (head = root index) of the node at
which the event is recorded, `none` when the event is filtered out or
matches no root. -/
def selectEvent (typeFilter : Option Nat) (pats : List EventPattern)
    (e : Event) : Option (List Nat) :=
  match typeFilter with
  | some t =>
    if e.type ≠ t then none
    else (selectPathList pats e).map fun iq => iq.1 :: iq.2
  | none => (selectPathList pats e).map fun iq => iq.1 :: iq.2

/-! ### Path-indexed access and single-node update -/

/-- Replace the element at index `i`, leaving every other element (and
an out-of-range list) unchanged. -/
def modifyAt (f : EventPattern → EventPattern) : List EventPattern → Nat → List EventPattern
  | [], _ => []
  | p :: ps, 0 => f p :: ps
  | p :: ps, i + 1 => p :: modifyAt f ps i

/-- The node of a tree at a child-index path. -/
def nodeAt : EventPattern → List Nat → Option EventPattern
  | t, [] => some t
  | t, i :: q =>
    match t.subPatterns[i]? with
    | some c => nodeAt c q
    | none => none

/-- The node of a forest at a full path (head = root index). -/
def forestNodeAt (pats : List EventPattern) : List Nat → Option EventPattern
  | [] => none
  | i :: q =>
    match pats[i]? with
    | some t => nodeAt t q
    | none => none

/-- `matchCount` of the node at a path (zero off the forest). -/
def matchCountAt (pats : List EventPattern) (path : List Nat) : Nat :=
  ((forestNodeAt pats path).map fun n => n.events.length).getD 0

/-- Record one event at the node at the given path of a tree: `addEvent`
there (with the captures of its own regex), every other node untouched. -/
def recordAt : EventPattern → List Nat → Event → EventPattern
  | t, [], e => addEvent t e ((t.regEx.matchFn e.message).getD [])
  | t, i :: q, e =>
    match t with
    | .node pid nm rx gns gvs par evs subs =>
      .node pid nm rx gns gvs par evs (modifyAt (fun c => recordAt c q e) subs i)

/-- Record one event at the node at a full forest path. -/
def recordAtF (pats : List EventPattern) : List Nat → Event → List EventPattern
  | [], _ => pats
  | i :: q, e => modifyAt (fun c => recordAt c q e) pats i

/-- The number of events of a stream that the selector sends to a given
path (the events whose deepest first-match node sits there). -/
def countSel (typeFilter : Option Nat) (pats : List EventPattern)
    (path : List Nat) : List Event → Nat
  | [] => 0
  | e :: es =>
    (if selectEvent typeFilter pats e = some path then 1 else 0)
      + countSel typeFilter pats path es

/-- The id `matchEvent t e` hands back when the event is recorded at the
given position inside `t`: `t` itself for `[]`, otherwise the immediate
child the traversal descended through — not the recorded node. -/
def returnedId (t : EventPattern) : List Nat → String
  | [] => t.patternId
  | i :: _ => (t.subPatterns.getD i dfltPattern).patternId

/-- The id `mainMatchEvent` hands back when the event is recorded at the
given forest position: the node at depth at most one below the matched
root on the path (the path truncated to length two). -/
def retIdF (pats : List EventPattern) : List Nat → String
  | [] => ""
  | [i] => (pats.getD i dfltPattern).patternId
  | i :: j :: _ => ((pats.getD i dfltPattern).subPatterns.getD j dfltPattern).patternId

/-- The mutable state of the single node at a path: its recorded events
and its per-group value sets. -/
def stateAt (pats : List EventPattern) (path : List Nat) :
    Option (List Event × List (List String)) :=
  (forestNodeAt pats path).map fun n => (n.events, n.groupValues)

/-! ### Concrete fixtures used by witnesses and counterexamples -/

/-- A regex that matches every message and declares no groups. -/
def rxAll : Regex := ⟨"all", [], fun _ => some []⟩

/-- A regex that matches no message. -/
def rxNone : Regex := ⟨"none", [], fun _ => none⟩

/-- A fixed event used by the concrete instances. -/
def evA : Event := ⟨0, "0", "2", "6480", "m"⟩

/-- Depth-three chain `A ▸ B ▸ C`, every regex matching: the event is
recorded at the grandchild `C` while `mainMatchEvent` returns `B`. -/
def cxC : EventPattern := .node "C" "C" rxAll [] [] "B" [] []

/-- Middle node of the depth-three chain. -/
def cxB : EventPattern := .node "B" "B" rxAll [] [] "A" [] [cxC]

/-- Root of the depth-three chain. -/
def cxA : EventPattern := .node "A" "A" rxAll [] [] "" [] [cxB]

/-- A leaf pattern whose regex never matches. -/
def leafN : EventPattern := .node "N" "N" rxNone [] [] "" [] []

/-- A leaf pattern whose regex always matches. -/
def leafY : EventPattern := .node "Y" "Y" rxAll [] [] "" [] []

/-- A second always-matching leaf, declared after `leafY`. -/
def leafZ : EventPattern := .node "Z" "Z" rxAll [] [] "" [] []

/-- Two-root forest: a never-matching root before an always-matching
root. -/
def wPats : List EventPattern := [leafN, leafY]

/-- Node exhibiting the hidden-group misalignment of `__str__`: groups
`_g` (hidden, one observed value) and `h` (no observed value), one
recorded event. -/
def c3Node : EventPattern :=
  .node "N" "N" ⟨"P", ["_g", "h"], fun _ => none⟩ ["_g", "h"] [["x"], []] "" [evA] []

/-- A regex with one named group `u`, capturing something on every
message. -/
def rxGrp : Regex := ⟨"grp", ["u"], fun _ => some [some "v"]⟩

/-- A leaf pattern with one named group. -/
def leafG : EventPattern := .node "G" "G" rxGrp ["u"] [[]] "" [] []

/-- A zero-occurrence childless node for the reporting claims. -/
def quietNode : EventPattern := .node "Q" "Q" rxNone [] [] "" [] []

/-- Configuration whose first row references a parent declared only on a
later row: `X` names parent `P` before `P` exists. -/
def c4Rows : List PatternRow := [⟨"X", rxNone, "P"⟩, ⟨"P", rxNone, ""⟩]

/-- Deep configuration `P ▸ A2 ▸ B2`, loaded in order. -/
def c4DeepRows : List PatternRow :=
  [⟨"P", rxNone, ""⟩, ⟨"A2", rxNone, "P"⟩, ⟨"B2", rxNone, "A2"⟩]

/-- A row attaching `C2x` under the deeply nested `B2`. -/
def c4DeepChild : PatternRow := ⟨"C2x", rxNone, "B2"⟩

/-! ### Helper lemmas on list access and update -/

theorem getD_of_getElem_some {α : Type} (l : List α) (i : Nat) (x d : α)
    (h : l[i]? = some x) : l.getD i d = x := by
  rw [List.getD_eq_getElem?_getD, h]; rfl

theorem modifyAt_getElem_self (f : EventPattern → EventPattern) :
    ∀ (l : List EventPattern) (i : Nat), (modifyAt f l i)[i]? = (l[i]?).map f
  | [], _ => by simp [modifyAt]
  | p :: ps, 0 => by simp [modifyAt]
  | p :: ps, i + 1 => by
    simp only [modifyAt, List.getElem?_cons_succ]
    exact modifyAt_getElem_self f ps i

theorem modifyAt_getElem_ne (f : EventPattern → EventPattern) :
    ∀ (l : List EventPattern) (i j : Nat), i ≠ j →
      (modifyAt f l i)[j]? = l[j]?
  | [], _, _, _ => by simp [modifyAt]
  | p :: ps, 0, 0, h => absurd rfl h
  | p :: ps, 0, j + 1, _ => by simp [modifyAt]
  | p :: ps, i + 1, 0, _ => by simp [modifyAt]
  | p :: ps, i + 1, j + 1, h => by
    simp only [modifyAt, List.getElem?_cons_succ]
    exact modifyAt_getElem_ne f ps i j (fun hij => h (by omega))

theorem setD_getD_self : ∀ (l : List (List String)) (i : Nat),
    i < l.length → l.set i (l.getD i []) = l
  | [], i, h => by simp at h
  | x :: xs, 0, _ => by simp [List.getD_eq_getElem?_getD]
  | x :: xs, i + 1, h => by
    simp only [List.length_cons] at h
    have hx : (x :: xs).getD (i + 1) [] = xs.getD i [] := by
      rw [List.getD_eq_getElem?_getD, List.getElem?_cons_succ,
        ← List.getD_eq_getElem?_getD]
    rw [hx]
    show x :: xs.set i (xs.getD i []) = x :: xs
    rw [setD_getD_self xs i (by omega)]

theorem set_of_length_le : ∀ (l : List (List String)) (i : Nat) (a : List String),
    l.length ≤ i → l.set i a = l
  | [], _, _, _ => by simp
  | x :: xs, 0, a, h => by simp at h
  | x :: xs, i + 1, a, h => by
    simp only [List.length_cons] at h
    simp only [List.set]
    rw [set_of_length_le xs i a (by omega)]

theorem getD_set_self (l : List (List String)) (i : Nat) (a : List String)
    (h : i < l.length) : (l.set i a).getD i [] = a := by
  rw [List.getD_eq_getElem?_getD, List.getElem?_set_self (by omega)]
  rfl

theorem getD_set_ne (l : List (List String)) (i j : Nat) (a : List String)
    (h : i ≠ j) : (l.set i a).getD j [] = l.getD j [] := by
  rw [List.getD_eq_getElem?_getD, List.getElem?_set_ne h, ← List.getD_eq_getElem?_getD]

/-! ### Lemmas on `setInsert` and `updateGroups` -/

theorem mem_setInsert_self (s : List String) (v : String) : v ∈ setInsert s v := by
  unfold setInsert
  by_cases h : v ∈ s
  · rwa [if_pos h]
  · rw [if_neg h]; exact List.mem_append_right s (List.mem_singleton.mpr rfl)

theorem setInsert_of_mem {s : List String} {v : String} (h : v ∈ s) :
    setInsert s v = s := if_pos h

theorem mem_setInsert_mono {s : List String} {x : String} (v : String)
    (h : x ∈ s) : x ∈ setInsert s v := by
  unfold setInsert
  by_cases hv : v ∈ s
  · rwa [if_pos hv]
  · rw [if_neg hv]; exact List.mem_append_left _ h

theorem length_updateGroups (gns : List String) :
    ∀ (l : List (String × Option String)) (gvs : List (List String)),
      (updateGroups gns gvs l).length = gvs.length
  | [], gvs => rfl
  | pr :: rest, gvs => by
    rw [show updateGroups gns gvs (pr :: rest)
        = updateGroups gns
            (gvs.set (gns.indexOf pr.1)
              (setInsert (gvs.getD (gns.indexOf pr.1) []) (groupValueOf pr.2)))
            rest from rfl]
    rw [length_updateGroups gns rest]
    exact List.length_set ..

theorem mem_updateGroups_mono (gns : List String) :
    ∀ (l : List (String × Option String)) (gvs : List (List String))
      (i : Nat) (x : String), x ∈ gvs.getD i [] →
      x ∈ (updateGroups gns gvs l).getD i []
  | [], _, _, _, h => h
  | pr :: rest, gvs, i, x, h => by
    apply mem_updateGroups_mono gns rest _ i x
    by_cases hij : gns.indexOf pr.1 = i
    · subst hij
      by_cases hlen : gns.indexOf pr.1 < gvs.length
      · rw [getD_set_self _ _ _ hlen]
        exact mem_setInsert_mono _ h
      · rw [set_of_length_le _ _ _ (by omega)]; exact h
    · rw [getD_set_ne _ _ _ _ hij]; exact h

theorem updateGroups_mem_post (gns : List String) :
    ∀ (l : List (String × Option String)) (gvs : List (List String))
      (pr : String × Option String), pr ∈ l →
      gns.indexOf pr.1 < gvs.length →
      groupValueOf pr.2 ∈ (updateGroups gns gvs l).getD (gns.indexOf pr.1) []
  | [], _, _, h, _ => absurd h (List.not_mem_nil _)
  | q :: rest, gvs, pr, h, hlen => by
    rcases List.mem_cons.mp h with heq | htl
    · subst heq
      apply mem_updateGroups_mono gns rest
      rw [getD_set_self _ _ _ hlen]
      exact mem_setInsert_self _ _
    · exact updateGroups_mem_post gns rest _ pr htl
        (by rw [List.length_set]; exact hlen)

theorem updateGroups_noop (gns : List String) :
    ∀ (l : List (String × Option String)) (gvs : List (List String)),
      (∀ pr ∈ l, gns.indexOf pr.1 < gvs.length →
        groupValueOf pr.2 ∈ gvs.getD (gns.indexOf pr.1) []) →
      updateGroups gns gvs l = gvs
  | [], gvs, _ => rfl
  | pr :: rest, gvs, h => by
    have hstep : gvs.set (gns.indexOf pr.1)
        (setInsert (gvs.getD (gns.indexOf pr.1) []) (groupValueOf pr.2)) = gvs := by
      by_cases hlen : gns.indexOf pr.1 < gvs.length
      · rw [setInsert_of_mem (h pr (List.mem_cons_self pr rest) hlen)]
        exact setD_getD_self gvs _ hlen
      · exact set_of_length_le _ _ _ (by omega)
    rw [show updateGroups gns gvs (pr :: rest)
        = updateGroups gns
            (gvs.set (gns.indexOf pr.1)
              (setInsert (gvs.getD (gns.indexOf pr.1) []) (groupValueOf pr.2)))
            rest from rfl]
    rw [hstep]
    exact updateGroups_noop gns rest gvs
      (fun q hq => h q (List.mem_cons_of_mem pr hq))

theorem updateGroups_idem (gns : List String) (gvs : List (List String))
    (l : List (String × Option String)) :
    updateGroups gns (updateGroups gns gvs l) l = updateGroups gns gvs l := by
  apply updateGroups_noop
  intro pr hpr hlen
  exact updateGroups_mem_post gns l gvs pr hpr
    (by rw [length_updateGroups] at hlen; exact hlen)

theorem updateGroups_cons_shift (g : String) (gtl : List String) :
    ∀ (l : List (String × Option String)) (v0 : List String)
      (vtl : List (List String)),
      (∀ pr ∈ l, pr.1 ≠ g) →
      updateGroups (g :: gtl) (v0 :: vtl) l = v0 :: updateGroups gtl vtl l
  | [], v0, vtl, _ => rfl
  | pr :: rest, v0, vtl, h => by
    have hne : pr.1 ≠ g := h pr (List.mem_cons_self pr rest)
    have hidx : (g :: gtl).indexOf pr.1 = gtl.indexOf pr.1 + 1 :=
      List.indexOf_cons_ne gtl (Ne.symm hne)
    rw [show updateGroups (g :: gtl) (v0 :: vtl) (pr :: rest)
        = updateGroups (g :: gtl)
            ((v0 :: vtl).set ((g :: gtl).indexOf pr.1)
              (setInsert ((v0 :: vtl).getD ((g :: gtl).indexOf pr.1) [])
                (groupValueOf pr.2)))
            rest from rfl]
    rw [hidx, List.getD_cons_succ, List.set_cons_succ]
    rw [updateGroups_cons_shift g gtl rest v0 _
      (fun q hq => h q (List.mem_cons_of_mem pr hq))]
    rfl

theorem updateGroups_zip_getD :
    ∀ (gns : List String) (caps : List (Option String))
      (gvs : List (List String)),
      gns.Nodup → gvs.length = gns.length → caps.length = gns.length →
      ∀ i, i < gns.length →
        (updateGroups gns gvs (gns.zip caps)).getD i []
          = setInsert (gvs.getD i []) (groupValueOf (caps.getD i none))
  | [], _, _, _, _, _, i, hi => by simp at hi
  | g :: gtl, caps, gvs, hnd, hlv, hlc, i, hi => by
    cases caps with
    | nil => simp at hlc
    | cons c ctl =>
      cases gvs with
      | nil => simp at hlv
      | cons v0 vtl =>
        have hg : g ∉ gtl := (List.nodup_cons.mp hnd).1
        have hzip : ∀ pr ∈ gtl.zip ctl, (pr : String × Option String).1 ≠ g :=
          fun pr hpr => fun he => hg (he ▸ (List.of_mem_zip hpr).1)
        have hstep : updateGroups (g :: gtl) (v0 :: vtl) ((g :: gtl).zip (c :: ctl))
            = setInsert v0 (groupValueOf c) :: updateGroups gtl vtl (gtl.zip ctl) := by
          rw [show (g :: gtl).zip (c :: ctl) = (g, c) :: gtl.zip ctl from rfl]
          rw [show updateGroups (g :: gtl) (v0 :: vtl) ((g, c) :: gtl.zip ctl)
              = updateGroups (g :: gtl)
                  ((v0 :: vtl).set ((g :: gtl).indexOf g)
                    (setInsert ((v0 :: vtl).getD ((g :: gtl).indexOf g) [])
                      (groupValueOf c)))
                  (gtl.zip ctl) from rfl]
          rw [List.indexOf_cons_self, List.getD_cons_zero, List.set_cons_zero]
          exact updateGroups_cons_shift g gtl (gtl.zip ctl) _ vtl hzip
        rw [hstep]
        cases i with
        | zero => rw [List.getD_cons_zero, List.getD_cons_zero, List.getD_cons_zero]
        | succ k =>
          rw [List.getD_cons_succ, List.getD_cons_succ, List.getD_cons_succ]
          exact updateGroups_zip_getD gtl ctl vtl (List.nodup_cons.mp hnd).2
            (by simpa using hlv) (by simpa using hlc) k (by simpa using hi)

/-! ### Unfolding equations for the mutually recursive functions -/

theorem selectPath_node (pid nm : String) (rx : Regex) (gns : List String)
    (gvs : List (List String)) (par : String) (evs : List Event)
    (subs : List EventPattern) (e : Event) :
    selectPath (.node pid nm rx gns gvs par evs subs) e
      = match rx.matchFn e.message with
        | none => none
        | some _ =>
          match selectPathList subs e with
          | some (i, q) => some (i :: q)
          | none => some [] := rfl

theorem selectPathList_nil (e : Event) :
    selectPathList [] e = none := rfl

theorem selectPathList_cons (p : EventPattern) (ps : List EventPattern) (e : Event) :
    selectPathList (p :: ps) e
      = match selectPath p e with
        | some q => some (0, q)
        | none => (selectPathList ps e).map fun iq => (iq.1 + 1, iq.2) := rfl

theorem matchEvent_node (pid nm : String) (rx : Regex) (gns : List String)
    (gvs : List (List String)) (par : String) (evs : List Event)
    (subs : List EventPattern) (e : Event) :
    matchEvent (.node pid nm rx gns gvs par evs subs) e
      = match rx.matchFn e.message with
        | none => (.node pid nm rx gns gvs par evs subs, none)
        | some caps =>
          match matchEventList subs e with
          | (subs2, some cid) => (.node pid nm rx gns gvs par evs subs2, some cid)
          | (subs2, none) =>
            (addEvent (.node pid nm rx gns gvs par evs subs2) e caps, some pid) := rfl

theorem matchEventList_nil (e : Event) :
    matchEventList [] e = ([], none) := rfl

theorem matchEventList_cons (p : EventPattern) (ps : List EventPattern) (e : Event) :
    matchEventList (p :: ps) e
      = match matchEvent p e with
        | (p2, some _) => (p2 :: ps, some p.patternId)
        | (p2, none) =>
          match matchEventList ps e with
          | (ps2, r) => (p2 :: ps2, r) := rfl

theorem mainMatchList_cons (p : EventPattern) (ps : List EventPattern) (e : Event) :
    mainMatchList (p :: ps) e
      = match p.regEx.matchFn e.message with
        | none =>
          match mainMatchList ps e with
          | (ps2, r) => (p :: ps2, r)
        | some caps =>
          if p.subPatterns.length > 0 then
            match matchEvent p e with
            | (p2, some sp) => (p2 :: ps, some sp)
            | (p2, none) => (addEvent p2 e caps :: ps, some p.patternId)
          else
            (addEvent p e caps :: ps, some p.patternId) := rfl

/-! ### Basic selector lemmas -/

theorem selectPath_none_iff : ∀ (t : EventPattern) (e : Event),
    selectPath t e = none ↔ t.regEx.matchFn e.message = none
  | .node pid nm rx gns gvs par evs subs, e => by
    rw [selectPath_node]
    show _ ↔ rx.matchFn e.message = none
    cases rx.matchFn e.message with
    | none => simp
    | some caps =>
      cases h : selectPathList subs e with
      | none => simp
      | some iq => cases iq with | mk i q => simp

theorem selectPathList_none : ∀ (ps : List EventPattern) (e : Event),
    selectPathList ps e = none → ∀ c ∈ ps, c.regEx.matchFn e.message = none := by
  intro ps e
  induction ps with
  | nil => intro _ c hc; exact absurd hc (List.not_mem_nil c)
  | cons p ps ih =>
    rw [selectPathList_cons]
    cases hp : selectPath p e with
    | some q => intro h; exact absurd h (by simp)
    | none =>
      cases hps : selectPathList ps e with
      | some iq => intro h; exact absurd h (by simp [hps])
      | none =>
        intro _ c hc
        rcases List.mem_cons.mp hc with rfl | htl
        · exact (selectPath_none_iff c e).mp hp
        · exact ih hps c htl

theorem selectPath_some_shape : ∀ (t : EventPattern) (e : Event)
    (caps : List (Option String)), t.regEx.matchFn e.message = some caps →
    selectPath t e
      = match selectPathList t.subPatterns e with
        | some (i, q) => some (i :: q)
        | none => some []
  | .node pid nm rx gns gvs par evs subs, e, caps, hm => by
    simp only [EventPattern.regEx] at hm
    simp only [EventPattern.subPatterns]
    rw [selectPath_node, hm]

mutual

theorem matchEvent_spec : ∀ (t : EventPattern) (e : Event),
    matchEvent t e
      = match selectPath t e with
        | none => (t, none)
        | some path => (recordAt t path e, some (returnedId t path))
  | .node pid nm rx gns gvs par evs subs, e => by
    rw [matchEvent_node, selectPath_node]
    cases hm : rx.matchFn e.message with
    | none => rfl
    | some caps =>
      rw [matchEventList_spec subs e]
      cases hsel : selectPathList subs e with
      | none =>
        show (addEvent (.node pid nm rx gns gvs par evs subs) e caps, some pid)
          = (addEvent (.node pid nm rx gns gvs par evs subs) e
              ((rx.matchFn e.message).getD []), some pid)
        rw [hm]
        rfl
      | some iq =>
        cases iq with
        | mk i q => rfl

theorem matchEventList_spec : ∀ (ps : List EventPattern) (e : Event),
    matchEventList ps e
      = match selectPathList ps e with
        | none => (ps, none)
        | some (i, q) =>
          (modifyAt (fun c => recordAt c q e) ps i,
           some ((ps.getD i dfltPattern).patternId))
  | [], e => rfl
  | p :: ps, e => by
    rw [matchEventList_cons, selectPathList_cons, matchEvent_spec p e]
    cases hp : selectPath p e with
    | some q => rfl
    | none =>
      rw [matchEventList_spec ps e]
      cases hps : selectPathList ps e with
      | none => rfl
      | some iq => cases iq with | mk i q => rfl

end

theorem mainMatchList_cons_nomatch (p : EventPattern) (ps : List EventPattern)
    (e : Event) (h : p.regEx.matchFn e.message = none) :
    mainMatchList (p :: ps) e
      = (p :: (mainMatchList ps e).1, (mainMatchList ps e).2) := by
  rw [mainMatchList_cons, h]

theorem mainMatchList_cons_matched (p : EventPattern) (ps : List EventPattern)
    (e : Event) (caps : List (Option String))
    (h : p.regEx.matchFn e.message = some caps) :
    mainMatchList (p :: ps) e
      = if p.subPatterns.length > 0 then
          match matchEvent p e with
          | (p2, some sp) => (p2 :: ps, some sp)
          | (p2, none) => (addEvent p2 e caps :: ps, some p.patternId)
        else (addEvent p e caps :: ps, some p.patternId) := by
  rw [mainMatchList_cons, h]

theorem mainMatchList_spec : ∀ (ps : List EventPattern) (e : Event),
    mainMatchList ps e
      = match selectPathList ps e with
        | none => (ps, none)
        | some (i, q) =>
          (modifyAt (fun c => recordAt c q e) ps i, some (retIdF ps (i :: q))) := by
  intro ps e
  induction ps with
  | nil => rfl
  | cons p ps ih =>
    cases hm : p.regEx.matchFn e.message with
    | none =>
      rw [mainMatchList_cons_nomatch p ps e hm, ih, selectPathList_cons,
        (selectPath_none_iff p e).mpr hm]
      cases hps : selectPathList ps e with
      | none => rfl
      | some iq => cases iq with | mk i q => cases q <;> rfl
    | some caps =>
      rw [mainMatchList_cons_matched p ps e caps hm, selectPathList_cons,
        selectPath_some_shape p e caps hm]
      by_cases hlen : p.subPatterns.length > 0
      · rw [if_pos hlen, matchEvent_spec p e, selectPath_some_shape p e caps hm]
        cases hsub : selectPathList p.subPatterns e with
        | none => rfl
        | some iq => cases iq with | mk i q => rfl
      · rw [if_neg hlen]
        have hsubs : p.subPatterns = [] :=
          List.length_eq_zero.mp (by omega)
        rw [hsubs, selectPathList_nil]
        show (addEvent p e caps :: ps, some p.patternId)
          = (addEvent p e ((p.regEx.matchFn e.message).getD []) :: ps,
             some p.patternId)
        rw [hm]
        rfl

theorem mainMatchEvent_spec : ∀ (tf : Option Nat) (pats : List EventPattern)
    (e : Event),
    mainMatchEvent tf pats e
      = match selectEvent tf pats e with
        | none => (pats, none)
        | some path => (recordAtF pats path e, some (retIdF pats path)) := by
  intro tf pats e
  cases tf with
  | none =>
    show mainMatchList pats e
      = match (selectPathList pats e).map (fun iq => iq.1 :: iq.2) with
        | none => (pats, none)
        | some path => (recordAtF pats path e, some (retIdF pats path))
    rw [mainMatchList_spec]
    cases hsel : selectPathList pats e with
    | none => rfl
    | some iq => cases iq with | mk i q => rfl
  | some t =>
    by_cases ht : e.type = t
    · show (if e.type ≠ t then (pats, none) else mainMatchList pats e)
        = match (if e.type ≠ t then none
            else (selectPathList pats e).map fun iq => iq.1 :: iq.2) with
          | none => (pats, none)
          | some path => (recordAtF pats path e, some (retIdF pats path))
      rw [if_neg (fun hne => hne ht), if_neg (fun hne => hne ht), mainMatchList_spec]
      cases hsel : selectPathList pats e with
      | none => rfl
      | some iq => cases iq with | mk i q => rfl
    · show (if e.type ≠ t then (pats, none) else mainMatchList pats e)
        = match (if e.type ≠ t then none
            else (selectPathList pats e).map fun iq => iq.1 :: iq.2) with
          | none => (pats, none)
          | some path => (recordAtF pats path e, some (retIdF pats path))
      rw [if_pos ht, if_pos ht]

/-! ### Validity of selected paths: the selected node exists, its regex
matches, and no child of it matches -/

theorem forestNodeAt_cons_zero (p : EventPattern) (ps : List EventPattern)
    (q : List Nat) : forestNodeAt (p :: ps) (0 :: q) = nodeAt p q := by
  show (match (p :: ps)[0]? with
    | some t => nodeAt t q
    | none => none) = nodeAt p q
  rw [List.getElem?_cons_zero]

theorem forestNodeAt_cons_succ (p : EventPattern) (ps : List EventPattern)
    (i : Nat) (q : List Nat) :
    forestNodeAt (p :: ps) ((i + 1) :: q) = forestNodeAt ps (i :: q) := by
  show (match (p :: ps)[i + 1]? with
    | some t => nodeAt t q
    | none => none)
    = (match ps[i]? with
      | some t => nodeAt t q
      | none => none)
  rw [List.getElem?_cons_succ]

mutual

theorem selectPath_valid : ∀ (t : EventPattern) (e : Event) (path : List Nat),
    selectPath t e = some path →
    ∃ n, nodeAt t path = some n ∧ (n.regEx.matchFn e.message).isSome = true
      ∧ ∀ c ∈ n.subPatterns, c.regEx.matchFn e.message = none
  | .node pid nm rx gns gvs par evs subs, e, path, h => by
    rw [selectPath_node] at h
    cases hm : rx.matchFn e.message with
    | none => rw [hm] at h; exact absurd (show (none : Option (List Nat)) = some path from h) (by simp)
    | some caps =>
      rw [hm] at h
      cases hsel : selectPathList subs e with
      | none =>
        rw [hsel] at h
        have hp : some ([] : List Nat) = some path := h
        cases Option.some.inj hp
        refine ⟨.node pid nm rx gns gvs par evs subs, rfl, ?_, ?_⟩
        · show (rx.matchFn e.message).isSome = true
          rw [hm]; rfl
        · intro c hc
          exact selectPathList_none subs e hsel c hc
      | some iq =>
        cases iq with
        | mk i q =>
          rw [hsel] at h
          have hp : some (i :: q) = some path := h
          cases Option.some.inj hp
          obtain ⟨n, hn, h1, h2⟩ := selectPathList_valid subs e i q hsel
          exact ⟨n, hn, h1, h2⟩

theorem selectPathList_valid : ∀ (ps : List EventPattern) (e : Event) (i : Nat)
    (q : List Nat),
    selectPathList ps e = some (i, q) →
    ∃ n, forestNodeAt ps (i :: q) = some n
      ∧ (n.regEx.matchFn e.message).isSome = true
      ∧ ∀ c ∈ n.subPatterns, c.regEx.matchFn e.message = none
  | [], e, i, q, h => absurd h (by rw [selectPathList_nil]; simp)
  | p :: ps, e, i, q, h => by
    rw [selectPathList_cons] at h
    cases hp : selectPath p e with
    | some q0 =>
      rw [hp] at h
      have h2 : some ((0 : Nat), q0) = some (i, q) := h
      have h3 := Option.some.inj h2
      rw [Prod.mk.injEq] at h3
      obtain ⟨h4, h5⟩ := h3
      subst h4
      subst h5
      obtain ⟨n, hn, ha, hb⟩ := selectPath_valid p e q0 hp
      refine ⟨n, ?_, ha, hb⟩
      rw [forestNodeAt_cons_zero]
      exact hn
    | none =>
      rw [hp] at h
      cases hps : selectPathList ps e with
      | none =>
        rw [hps] at h
        exact absurd (show (none : Option (Nat × List Nat)) = some (i, q) from h)
          (by simp)
      | some iq0 =>
        cases iq0 with
        | mk i0 q0 =>
          rw [hps] at h
          have h2 : some (i0 + 1, q0) = some (i, q) := h
          have h3 := Option.some.inj h2
          rw [Prod.mk.injEq] at h3
          obtain ⟨h4, h5⟩ := h3
          subst h4
          subst h5
          obtain ⟨n, hn, ha, hb⟩ := selectPathList_valid ps e i0 q0 hps
          refine ⟨n, ?_, ha, hb⟩
          rw [forestNodeAt_cons_succ]
          exact hn

end

theorem selectEvent_valid (tf : Option Nat) (pats : List EventPattern)
    (e : Event) (path : List Nat) (h : selectEvent tf pats e = some path) :
    ∃ n, forestNodeAt pats path = some n
      ∧ (n.regEx.matchFn e.message).isSome = true
      ∧ ∀ c ∈ n.subPatterns, c.regEx.matchFn e.message = none := by
  have hsel : (selectPathList pats e).map (fun iq => iq.1 :: iq.2) = some path := by
    cases tf with
    | none => exact h
    | some t =>
      by_cases ht : e.type = t
      · have h2 : (if e.type ≠ t then none
            else (selectPathList pats e).map fun iq => iq.1 :: iq.2) = some path := h
        rwa [if_neg (fun hne => hne ht)] at h2
      · have h2 : (if e.type ≠ t then none
            else (selectPathList pats e).map fun iq => iq.1 :: iq.2) = some path := h
        rw [if_pos ht] at h2
        exact absurd h2 (by simp)
  cases hps : selectPathList pats e with
  | none => rw [hps] at hsel; exact absurd hsel (by simp)
  | some iq =>
    cases iq with
    | mk i q =>
      rw [hps] at hsel
      have h3 : some (i :: q) = some path := hsel
      cases Option.some.inj h3
      exact selectPathList_valid pats e i q hps

/-! ### Field lemmas for `addEvent` and `recordAt` -/

theorem addEvent_subPatterns : ∀ (t : EventPattern) (e : Event)
    (caps : List (Option String)),
    (addEvent t e caps).subPatterns = t.subPatterns
  | .node _ _ _ _ _ _ _ _, _, _ => rfl

theorem addEvent_events : ∀ (t : EventPattern) (e : Event)
    (caps : List (Option String)),
    (addEvent t e caps).events = t.events ++ [e]
  | .node _ _ _ _ _ _ _ _, _, _ => rfl

theorem addEvent_groupValues : ∀ (t : EventPattern) (e : Event)
    (caps : List (Option String)),
    (addEvent t e caps).groupValues
      = updateGroups t.groupNames t.groupValues (t.regEx.groupNames.zip caps)
  | .node _ _ _ _ _ _ _ _, _, _ => rfl

theorem recordAt_nil (t : EventPattern) (e : Event) :
    recordAt t [] e = addEvent t e ((t.regEx.matchFn e.message).getD []) := rfl

theorem recordAt_cons_subPatterns : ∀ (t : EventPattern) (i : Nat)
    (q : List Nat) (e : Event),
    (recordAt t (i :: q) e).subPatterns
      = modifyAt (fun c => recordAt c q e) t.subPatterns i
  | .node _ _ _ _ _ _ _ _, _, _, _ => rfl

theorem recordAt_cons_events : ∀ (t : EventPattern) (i : Nat) (q : List Nat)
    (e : Event), (recordAt t (i :: q) e).events = t.events
  | .node _ _ _ _ _ _ _ _, _, _, _ => rfl

theorem recordAt_cons_groupValues : ∀ (t : EventPattern) (i : Nat)
    (q : List Nat) (e : Event),
    (recordAt t (i :: q) e).groupValues = t.groupValues
  | .node _ _ _ _ _ _ _ _, _, _, _ => rfl

theorem nodeAt_cons_eq (t : EventPattern) (i : Nat) (q : List Nat)
    (c : EventPattern) (h : t.subPatterns[i]? = some c) :
    nodeAt t (i :: q) = nodeAt c q := by
  show (match t.subPatterns[i]? with
    | some c2 => nodeAt c2 q
    | none => none) = nodeAt c q
  rw [h]

theorem nodeAt_cons_none (t : EventPattern) (i : Nat) (q : List Nat)
    (h : t.subPatterns[i]? = none) : nodeAt t (i :: q) = none := by
  show (match t.subPatterns[i]? with
    | some c2 => nodeAt c2 q
    | none => none) = none
  rw [h]

/-! ### Frame lemmas: `recordAt` touches exactly the addressed node -/

theorem nodeAt_recordAt_self : ∀ (q : List Nat) (t : EventPattern) (e : Event)
    (n : EventPattern), nodeAt t q = some n →
    nodeAt (recordAt t q e) q
      = some (addEvent n e ((n.regEx.matchFn e.message).getD []))
  | [], t, e, n, h => by
    cases Option.some.inj (show some t = some n from h)
    rw [recordAt_nil]
    rfl
  | i :: q, t, e, n, h => by
    cases hc : t.subPatterns[i]? with
    | none => rw [nodeAt_cons_none t i q hc] at h; exact absurd h (by simp)
    | some c =>
      rw [nodeAt_cons_eq t i q c hc] at h
      have hsub : (recordAt t (i :: q) e).subPatterns[i]?
          = some (recordAt c q e) := by
        rw [recordAt_cons_subPatterns, modifyAt_getElem_self, hc]
        rfl
      rw [nodeAt_cons_eq (recordAt t (i :: q) e) i q (recordAt c q e) hsub]
      exact nodeAt_recordAt_self q c e n h

theorem nodeAt_recordAt_frame : ∀ (q q2 : List Nat) (t : EventPattern)
    (e : Event), q2 ≠ q →
    (nodeAt (recordAt t q e) q2).map (fun n => (n.events, n.groupValues))
      = (nodeAt t q2).map (fun n => (n.events, n.groupValues))
  | [], [], t, e, hne => absurd rfl hne
  | [], j :: r, t, e, _ => by
    rw [recordAt_nil]
    cases hc : t.subPatterns[j]? with
    | none =>
      rw [nodeAt_cons_none t j r hc,
        nodeAt_cons_none (addEvent t e ((t.regEx.matchFn e.message).getD [])) j r
          (by rw [addEvent_subPatterns]; exact hc)]
    | some c =>
      rw [nodeAt_cons_eq t j r c hc,
        nodeAt_cons_eq (addEvent t e ((t.regEx.matchFn e.message).getD [])) j r c
          (by rw [addEvent_subPatterns]; exact hc)]
  | i :: q, [], t, e, _ => by
    show some ((recordAt t (i :: q) e).events, (recordAt t (i :: q) e).groupValues)
      = some (t.events, t.groupValues)
    rw [recordAt_cons_events, recordAt_cons_groupValues]
  | i :: q, j :: r2, t, e, hne => by
    by_cases hij : i = j
    · subst hij
      have hr : r2 ≠ q := fun hr => hne (by rw [hr])
      cases hc : t.subPatterns[i]? with
      | none =>
        rw [nodeAt_cons_none t i r2 hc,
          nodeAt_cons_none (recordAt t (i :: q) e) i r2
            (by rw [recordAt_cons_subPatterns, modifyAt_getElem_self, hc]; rfl)]
      | some c =>
        rw [nodeAt_cons_eq t i r2 c hc,
          nodeAt_cons_eq (recordAt t (i :: q) e) i r2 (recordAt c q e)
            (by rw [recordAt_cons_subPatterns, modifyAt_getElem_self, hc]; rfl)]
        exact nodeAt_recordAt_frame q r2 c e hr
    · cases hc : t.subPatterns[j]? with
      | none =>
        rw [nodeAt_cons_none t j r2 hc,
          nodeAt_cons_none (recordAt t (i :: q) e) j r2
            (by rw [recordAt_cons_subPatterns, modifyAt_getElem_ne _ _ _ _ hij]
                exact hc)]
      | some c =>
        rw [nodeAt_cons_eq t j r2 c hc,
          nodeAt_cons_eq (recordAt t (i :: q) e) j r2 c
            (by rw [recordAt_cons_subPatterns, modifyAt_getElem_ne _ _ _ _ hij]
                exact hc)]

theorem forestNodeAt_cons_eq (pats : List EventPattern) (i : Nat)
    (q : List Nat) (t : EventPattern) (h : pats[i]? = some t) :
    forestNodeAt pats (i :: q) = nodeAt t q := by
  show (match pats[i]? with
    | some t2 => nodeAt t2 q
    | none => none) = nodeAt t q
  rw [h]

theorem forestNodeAt_cons_none (pats : List EventPattern) (i : Nat)
    (q : List Nat) (h : pats[i]? = none) :
    forestNodeAt pats (i :: q) = none := by
  show (match pats[i]? with
    | some t2 => nodeAt t2 q
    | none => none) = none
  rw [h]

theorem forestNodeAt_recordAtF_self : ∀ (pats : List EventPattern)
    (path : List Nat) (e : Event) (n : EventPattern),
    forestNodeAt pats path = some n →
    forestNodeAt (recordAtF pats path e) path
      = some (addEvent n e ((n.regEx.matchFn e.message).getD []))
  | pats, [], e, n, h => absurd h (by simp [forestNodeAt])
  | pats, i :: q, e, n, h => by
    cases hc : pats[i]? with
    | none => rw [forestNodeAt_cons_none pats i q hc] at h; exact absurd h (by simp)
    | some t =>
      rw [forestNodeAt_cons_eq pats i q t hc] at h
      have hsub : (recordAtF pats (i :: q) e)[i]? = some (recordAt t q e) := by
        show (modifyAt (fun c => recordAt c q e) pats i)[i]? = _
        rw [modifyAt_getElem_self, hc]
        rfl
      rw [forestNodeAt_cons_eq (recordAtF pats (i :: q) e) i q (recordAt t q e) hsub]
      exact nodeAt_recordAt_self q t e n h

theorem stateAt_recordAtF_frame : ∀ (pats : List EventPattern)
    (path q2 : List Nat) (e : Event), q2 ≠ path →
    stateAt (recordAtF pats path e) q2 = stateAt pats q2
  | pats, [], q2, e, _ => rfl
  | pats, i :: q, [], e, _ => rfl
  | pats, i :: q, j :: r2, e, hne => by
    unfold stateAt
    by_cases hij : i = j
    · subst hij
      have hr : r2 ≠ q := fun hr => hne (by rw [hr])
      cases hc : pats[i]? with
      | none =>
        rw [forestNodeAt_cons_none pats i r2 hc,
          forestNodeAt_cons_none (recordAtF pats (i :: q) e) i r2
            (by show (modifyAt (fun c => recordAt c q e) pats i)[i]? = none
                rw [modifyAt_getElem_self, hc]; rfl)]
      | some t =>
        rw [forestNodeAt_cons_eq pats i r2 t hc,
          forestNodeAt_cons_eq (recordAtF pats (i :: q) e) i r2 (recordAt t q e)
            (by show (modifyAt (fun c => recordAt c q e) pats i)[i]? = _
                rw [modifyAt_getElem_self, hc]; rfl)]
        exact nodeAt_recordAt_frame q r2 t e hr
    · cases hc : pats[j]? with
      | none =>
        rw [forestNodeAt_cons_none pats j r2 hc,
          forestNodeAt_cons_none (recordAtF pats (i :: q) e) j r2
            (by show (modifyAt (fun c => recordAt c q e) pats i)[j]? = none
                rw [modifyAt_getElem_ne _ _ _ _ hij]; exact hc)]
      | some t =>
        rw [forestNodeAt_cons_eq pats j r2 t hc,
          forestNodeAt_cons_eq (recordAtF pats (i :: q) e) j r2 t
            (by show (modifyAt (fun c => recordAt c q e) pats i)[j]? = some t
                rw [modifyAt_getElem_ne _ _ _ _ hij]; exact hc)]

/-! ### Stability: recording an event never changes what later events
select (matching reads only regexes and tree shape, which recording
preserves) -/

theorem selectPathList_modifyAt : ∀ (sibs : List EventPattern) (i : Nat)
    (f : EventPattern → EventPattern) (e2 : Event),
    (∀ c, selectPath (f c) e2 = selectPath c e2) →
    selectPathList (modifyAt f sibs i) e2 = selectPathList sibs e2
  | [], _, _, _, _ => rfl
  | p :: ps, 0, f, e2, h => by
    show selectPathList (f p :: ps) e2 = _
    rw [selectPathList_cons, selectPathList_cons, h p]
  | p :: ps, i + 1, f, e2, h => by
    show selectPathList (p :: modifyAt f ps i) e2 = _
    rw [selectPathList_cons, selectPathList_cons,
      selectPathList_modifyAt ps i f e2 h]

theorem selectPath_recordAt : ∀ (q : List Nat) (t : EventPattern) (e e2 : Event),
    selectPath (recordAt t q e) e2 = selectPath t e2
  | [], t, e, e2 => by
    rw [recordAt_nil]
    cases t with
    | node pid nm rx gns gvs par evs subs => rfl
  | i :: q, t, e, e2 => by
    cases t with
    | node pid nm rx gns gvs par evs subs =>
      show selectPath (.node pid nm rx gns gvs par evs
        (modifyAt (fun c => recordAt c q e) subs i)) e2 = _
      rw [selectPath_node, selectPath_node,
        selectPathList_modifyAt subs i _ e2 (fun c => selectPath_recordAt q c e e2)]

theorem selectPathList_recordAtF : ∀ (pats : List EventPattern)
    (path : List Nat) (e e2 : Event),
    selectPathList (recordAtF pats path e) e2 = selectPathList pats e2
  | _, [], _, _ => rfl
  | pats, i :: q, e, e2 =>
    selectPathList_modifyAt pats i _ e2 (fun c => selectPath_recordAt q c e e2)

theorem selectEvent_recordAtF (tf : Option Nat) (pats : List EventPattern)
    (path : List Nat) (e e2 : Event) :
    selectEvent tf (recordAtF pats path e) e2 = selectEvent tf pats e2 := by
  cases tf with
  | none =>
    show (selectPathList (recordAtF pats path e) e2).map _
      = (selectPathList pats e2).map _
    rw [selectPathList_recordAtF]
  | some t =>
    show (if e2.type ≠ t then none
        else (selectPathList (recordAtF pats path e) e2).map fun iq => iq.1 :: iq.2)
      = (if e2.type ≠ t then none
        else (selectPathList pats e2).map fun iq => iq.1 :: iq.2)
    rw [selectPathList_recordAtF]

theorem selectEvent_step (tf : Option Nat) (pats : List EventPattern)
    (e e2 : Event) :
    selectEvent tf (mainMatchEvent tf pats e).1 e2 = selectEvent tf pats e2 := by
  rw [mainMatchEvent_spec]
  cases hsel : selectEvent tf pats e with
  | none => rfl
  | some path => exact selectEvent_recordAtF tf pats path e e2

/-! ### Per-event effect on the match counts -/

theorem matchCountAt_eq_stateAt (pats : List EventPattern) (path : List Nat) :
    matchCountAt pats path = ((stateAt pats path).map fun st => st.1.length).getD 0 := by
  unfold matchCountAt stateAt
  cases forestNodeAt pats path <;> rfl

theorem matchCountAt_step (tf : Option Nat) (pats : List EventPattern)
    (e : Event) (path : List Nat) :
    matchCountAt (mainMatchEvent tf pats e).1 path
      = matchCountAt pats path
        + (if selectEvent tf pats e = some path then 1 else 0) := by
  rw [mainMatchEvent_spec]
  cases hsel : selectEvent tf pats e with
  | none => simp
  | some path0 =>
    by_cases hp : path0 = path
    · subst hp
      rw [if_pos rfl]
      obtain ⟨n, hn, _, _⟩ := selectEvent_valid tf pats e path0 hsel
      show matchCountAt (recordAtF pats path0 e) path0 = _
      unfold matchCountAt
      rw [forestNodeAt_recordAtF_self pats path0 e n hn, hn]
      show (addEvent n e ((n.regEx.matchFn e.message).getD [])).events.length
        = n.events.length + 1
      rw [addEvent_events]
      simp
    · rw [if_neg (show ¬(some path0 = some path) from
        fun hx => hp (Option.some.inj hx))]
      show matchCountAt (recordAtF pats path0 e) path = matchCountAt pats path + 0
      rw [matchCountAt_eq_stateAt, matchCountAt_eq_stateAt,
        stateAt_recordAtF_frame pats path0 path e (fun hx => hp hx.symm)]
      simp

/-! ### Counting over a whole event stream -/

theorem countSel_congr (tf : Option Nat) (pats pats2 : List EventPattern)
    (path : List Nat) :
    ∀ (es : List Event),
      (∀ e2, selectEvent tf pats2 e2 = selectEvent tf pats e2) →
      countSel tf pats2 path es = countSel tf pats path es
  | [], _ => rfl
  | e :: es, h => by
    show (if selectEvent tf pats2 e = some path then 1 else 0)
        + countSel tf pats2 path es
      = (if selectEvent tf pats e = some path then 1 else 0)
        + countSel tf pats path es
    rw [h e, countSel_congr tf pats pats2 path es h]

theorem processEvents_count (tf : Option Nat) : ∀ (es : List Event)
    (pats : List EventPattern) (path : List Nat),
    matchCountAt (processEvents tf pats es) path
      = matchCountAt pats path + countSel tf pats path es
  | [], pats, path => by simp [processEvents, countSel]
  | e :: es, pats, path => by
    show matchCountAt (processEvents tf (mainMatchEvent tf pats e).1 es) path = _
    rw [processEvents_count tf es (mainMatchEvent tf pats e).1 path,
      matchCountAt_step tf pats e path,
      countSel_congr tf pats (mainMatchEvent tf pats e).1 path es
        (fun e2 => selectEvent_step tf pats e e2)]
    show matchCountAt pats path + (if selectEvent tf pats e = some path then 1 else 0)
        + countSel tf pats path es
      = matchCountAt pats path
        + ((if selectEvent tf pats e = some path then 1 else 0)
          + countSel tf pats path es)
    rw [Nat.add_assoc]

/-! ### Tree-assembly characterization: attachment succeeds exactly when
the parent id already occurs, and puts the child under that node -/

mutual

theorem attachInTree_none : ∀ (t child : EventPattern),
    treeHasId child.parentId t = false → attachInTree t child = none
  | .node pid nm rx gns gvs par evs subs, child, h => by
    have h2 : (decide (pid = child.parentId)
        || listHasId child.parentId subs) = false := h
    rw [Bool.or_eq_false_iff] at h2
    have hpid : ¬ child.parentId = pid := fun he =>
      by rw [decide_eq_false_iff_not] at h2; exact h2.1 he.symm
    show (if child.parentId = pid then _ else _) = none
    rw [if_neg hpid, attachInList_none subs child h2.2]

theorem attachInList_none : ∀ (ps : List EventPattern) (child : EventPattern),
    listHasId child.parentId ps = false → attachInList ps child = none
  | [], _, _ => rfl
  | p :: ps, child, h => by
    have h2 : (treeHasId child.parentId p
        || listHasId child.parentId ps) = false := h
    rw [Bool.or_eq_false_iff] at h2
    show (match attachInTree p child with
      | some p2 => some (p2 :: ps)
      | none =>
        match attachInList ps child with
        | some ps2 => some (p :: ps2)
        | none => none) = none
    rw [attachInTree_none p child h2.1, attachInList_none ps child h2.2]

end

mutual

theorem attachInTree_of_hasId : ∀ (t child : EventPattern),
    treeHasId child.parentId t = true →
    ∃ t2, attachInTree t child = some t2
      ∧ treeChildUnder child.parentId child.patternId t2 = true
  | .node pid nm rx gns gvs par evs subs, child, h => by
    by_cases hpid : child.parentId = pid
    · refine ⟨.node pid nm rx gns gvs par evs (subs ++ [child]), ?_, ?_⟩
      · show (if child.parentId = pid then
            some (EventPattern.node pid nm rx gns gvs par evs (subs ++ [child]))
          else
            match attachInList subs child with
            | some subs2 => some (EventPattern.node pid nm rx gns gvs par evs subs2)
            | none => none)
          = some (EventPattern.node pid nm rx gns gvs par evs (subs ++ [child]))
        rw [if_pos hpid]
      · show (decide (pid = child.parentId
            ∧ child.patternId ∈ (subs ++ [child]).map EventPattern.patternId)
          || listChildUnder child.parentId child.patternId (subs ++ [child])) = true
        rw [Bool.or_eq_true]
        left
        rw [decide_eq_true_eq]
        exact ⟨hpid.symm,
          List.mem_map_of_mem EventPattern.patternId
            (List.mem_append_right subs (List.mem_singleton.mpr rfl))⟩
    · have h2 : (decide (pid = child.parentId)
          || listHasId child.parentId subs) = true := h
      rw [Bool.or_eq_true] at h2
      have hlist : listHasId child.parentId subs = true := by
        rcases h2 with h3 | h3
        · rw [decide_eq_true_eq] at h3; exact absurd h3.symm hpid
        · exact h3
      obtain ⟨subs2, hat, hcu⟩ := attachInList_of_hasId subs child hlist
      refine ⟨.node pid nm rx gns gvs par evs subs2, ?_, ?_⟩
      · show (if child.parentId = pid then
            some (EventPattern.node pid nm rx gns gvs par evs (subs ++ [child]))
          else
            match attachInList subs child with
            | some s2 => some (EventPattern.node pid nm rx gns gvs par evs s2)
            | none => none)
          = some (EventPattern.node pid nm rx gns gvs par evs subs2)
        rw [if_neg hpid, hat]
      · show (decide (pid = child.parentId
            ∧ child.patternId ∈ subs2.map EventPattern.patternId)
          || listChildUnder child.parentId child.patternId subs2) = true
        rw [Bool.or_eq_true]
        right
        exact hcu

theorem attachInList_of_hasId : ∀ (ps : List EventPattern)
    (child : EventPattern),
    listHasId child.parentId ps = true →
    ∃ ps2, attachInList ps child = some ps2
      ∧ listChildUnder child.parentId child.patternId ps2 = true
  | [], child, h => absurd (show (false : Bool) = true from h) (by simp)
  | p :: ps, child, h => by
    cases hb : treeHasId child.parentId p with
    | true =>
      obtain ⟨p2, hat, hcu⟩ := attachInTree_of_hasId p child hb
      refine ⟨p2 :: ps, ?_, ?_⟩
      · show (match attachInTree p child with
          | some p2 => some (p2 :: ps)
          | none => _) = _
        rw [hat]
      · show (treeChildUnder child.parentId child.patternId p2
          || listChildUnder child.parentId child.patternId ps) = true
        rw [Bool.or_eq_true]
        left
        exact hcu
    | false =>
      have h2 : (treeHasId child.parentId p
          || listHasId child.parentId ps) = true := h
      rw [Bool.or_eq_true] at h2
      have hlist : listHasId child.parentId ps = true := by
        rcases h2 with h3 | h3
        · rw [hb] at h3; exact absurd h3 (by simp)
        · exact h3
      obtain ⟨ps2, hat, hcu⟩ := attachInList_of_hasId ps child hlist
      refine ⟨p :: ps2, ?_, ?_⟩
      · show (match attachInTree p child with
          | some p2 => some (p2 :: ps)
          | none =>
            match attachInList ps child with
            | some ps2 => some (p :: ps2)
            | none => none) = _
        rw [attachInTree_none p child hb, hat]
      · show (treeChildUnder child.parentId child.patternId p
          || listChildUnder child.parentId child.patternId ps2) = true
        rw [Bool.or_eq_true]
        right
        exact hcu

end

theorem retIdF_nodeAt : ∀ (pats : List EventPattern) (path : List Nat)
    (n : EventPattern), forestNodeAt pats path = some n →
    ∃ m, forestNodeAt pats (path.take 2) = some m
      ∧ retIdF pats path = m.patternId
  | pats, [], n, h =>
    absurd (show (none : Option EventPattern) = some n from h) (by simp)
  | pats, [i], n, h => by
    refine ⟨n, h, ?_⟩
    cases hc : pats[i]? with
    | none =>
      rw [forestNodeAt_cons_none pats i [] hc] at h
      exact absurd h (by simp)
    | some t =>
      rw [forestNodeAt_cons_eq pats i [] t hc] at h
      cases Option.some.inj (show some t = some n from h)
      show (pats.getD i dfltPattern).patternId = n.patternId
      rw [getD_of_getElem_some pats i n dfltPattern hc]
  | pats, i :: j :: rest, n, h => by
    cases hc : pats[i]? with
    | none =>
      rw [forestNodeAt_cons_none pats i (j :: rest) hc] at h
      exact absurd h (by simp)
    | some t =>
      rw [forestNodeAt_cons_eq pats i (j :: rest) t hc] at h
      cases hc2 : t.subPatterns[j]? with
      | none =>
        rw [nodeAt_cons_none t j rest hc2] at h
        exact absurd h (by simp)
      | some c =>
        refine ⟨c, ?_, ?_⟩
        · show forestNodeAt pats (i :: [j]) = some c
          rw [forestNodeAt_cons_eq pats i [j] t hc, nodeAt_cons_eq t j [] c hc2]
          rfl
        · show ((pats.getD i dfltPattern).subPatterns.getD j dfltPattern).patternId
            = c.patternId
          rw [getD_of_getElem_some pats i t dfltPattern hc,
            getD_of_getElem_some t.subPatterns j c dfltPattern hc2]

/-! ## The claims -/

/-- C1: each processed event is recorded at at most one node — its count
lands exactly at the path the first-match depth-first selector picks —
and after processing a stream every node's `matchCount` (its recorded
events) equals the number of events for which that node was the deepest
matching node: its own regex matched and no sub-pattern's regex matched,
ancestors on the path staying untouched. -/
theorem c1_deepest_match_count :
    ∀ (tf : Option Nat) (pats : List EventPattern) (es : List Event)
      (path : List Nat),
      matchCountAt (processEvents tf pats es) path
        = matchCountAt pats path + countSel tf pats path es
      ∧ ∀ (e : Event) (n : EventPattern), selectEvent tf pats e = some path →
          forestNodeAt pats path = some n →
          (n.regEx.matchFn e.message).isSome = true
          ∧ ∀ c ∈ n.subPatterns, c.regEx.matchFn e.message = none := by
  intro tf pats es path
  refine ⟨processEvents_count tf es pats path, ?_⟩
  intro e n hsel hn
  obtain ⟨n2, hn2, ha, hb⟩ := selectEvent_valid tf pats e path hsel
  rw [hn] at hn2
  cases Option.some.inj hn2
  exact ⟨ha, hb⟩

/-- Witness for C1 at a concrete two-root forest and two events. -/
theorem c1_witness :
    (matchCountAt (processEvents none wPats [evA, evA]) [1]
      = matchCountAt wPats [1] + countSel none wPats [1] [evA, evA])
    ∧ ((leafY.regEx.matchFn evA.message).isSome = true
      ∧ ∀ c ∈ leafY.subPatterns, c.regEx.matchFn evA.message = none) :=
  ⟨(c1_deepest_match_count none wPats [evA, evA] [1]).1,
   (c1_deepest_match_count none wPats [evA, evA] [1]).2 evA leafY
     (by decide) rfl⟩

/-- C2 counterexample: on the depth-three chain `A ▸ B ▸ C` with every
regex matching, the event is recorded at `C` (its count becomes one) but
the match operation returns `B`, whose count stays zero — the returned
node is not the node at which the event was recorded. -/
theorem c2_counterexample :
    (mainMatchEvent none [cxA] evA).2 = some "B"
    ∧ ((forestNodeAt (mainMatchEvent none [cxA] evA).1 [0, 0]).map
        EventPattern.patternId = some "B")
    ∧ matchCountAt (mainMatchEvent none [cxA] evA).1 [0, 0] = 0
    ∧ ((forestNodeAt (mainMatchEvent none [cxA] evA).1 [0, 0, 0]).map
        EventPattern.patternId = some "C")
    ∧ matchCountAt (mainMatchEvent none [cxA] evA).1 [0, 0, 0] = 1 := by
  refine ⟨?_, ?_, ?_, ?_, ?_⟩ <;> decide

/-- C2 amended: the event is recorded at the deepest first-match node,
but the returned reference is the node on that path at depth at most one
below the matched root (the path truncated to length two): the recorded
node itself when it is a root or a root's immediate child, otherwise a
proper ancestor of the recorded node. With no match, no node is
returned. -/
theorem c2_return_level :
    ∀ (tf : Option Nat) (pats : List EventPattern) (e : Event),
      (selectEvent tf pats e = none → mainMatchEvent tf pats e = (pats, none))
      ∧ ∀ path, selectEvent tf pats e = some path →
          (mainMatchEvent tf pats e).1 = recordAtF pats path e
          ∧ ∃ m, forestNodeAt pats (path.take 2) = some m
              ∧ (mainMatchEvent tf pats e).2 = some m.patternId := by
  intro tf pats e
  constructor
  · intro h
    rw [mainMatchEvent_spec, h]
  · intro path h
    rw [mainMatchEvent_spec, h]
    refine ⟨rfl, ?_⟩
    obtain ⟨n, hn, _, _⟩ := selectEvent_valid tf pats e path h
    obtain ⟨m, hm, hid⟩ := retIdF_nodeAt pats path n hn
    refine ⟨m, hm, ?_⟩
    show some (retIdF pats path) = some m.patternId
    rw [hid]

/-- Witness for the amended C2 on the depth-three chain. -/
theorem c2_witness :
    (mainMatchEvent none [cxA] evA).1 = recordAtF [cxA] [0, 0, 0] evA
    ∧ ∃ m, forestNodeAt [cxA] ([0, 0, 0].take 2) = some m
        ∧ (mainMatchEvent none [cxA] evA).2 = some m.patternId :=
  (c2_return_level none [cxA] evA).2 [0, 0, 0] (by decide)

/-- C3: evaluation of the report at the failing input. With groups
`_g` (hidden, one observed value `x`) and `h` (no observed values), the
non-detail report prints the line `h (1): x` — the name of `h` paired
with the distinct-value count and values of `_g`, because the source
does not advance the value-set index when it skips a hidden group. The
detail report shows the correctly aligned lines. -/
theorem c3_misaligned_group_line :
    epToString false c3Node = "***    1x N - P\n  h (1): x\n"
    ∧ epToString true c3Node
      = "***    1x N - P\n  _g (1): x\n  h (0): \n" := by
  constructor <;> rfl

/-- C4 counterexample: row `X` references parent `P`, declared only on
the following row; although `P` is declared in the configuration, `X`
ends up nowhere in the assembled forest (it is silently dropped), so a
pattern whose parent appears on a later row is not attached. -/
theorem c4_counterexample :
    c4Rows.map PatternRow.name = ["X", "P"]
    ∧ c4Rows.map PatternRow.parent = ["P", ""]
    ∧ listHasId "X" (loadPatterns c4Rows) = false
    ∧ listHasId "P" (loadPatterns c4Rows) = true := by
  refine ⟨rfl, rfl, ?_, ?_⟩ <;> decide

/-- C4 amended: whenever a row's parent id is the id of a node already
present anywhere in the forest — at any nesting depth — tree assembly
attaches the new pattern as an immediate child of a node carrying that
id; a parent declared only on a later row is never found and the row is
dropped. -/
theorem c4_attach_under_declared_parent :
    ∀ (forest : List EventPattern) (row : PatternRow),
      row.parent.length > 0 →
      listHasId row.parent forest = true →
      listChildUnder row.parent row.name (insertPattern forest row) = true := by
  intro forest row hp hhas
  show listChildUnder row.parent row.name
    (if row.parent.length > 0 then (addSubPattern forest (newPattern row)).1
     else forest ++ [newPattern row]) = true
  rw [if_pos hp]
  obtain ⟨f2, hat, hcu⟩ := attachInList_of_hasId forest (newPattern row) hhas
  show listChildUnder row.parent row.name
    (match attachInList forest (newPattern row) with
      | some f2 => (f2, true)
      | none => (forest, false)).1 = true
  rw [hat]
  exact hcu

/-- Witness for C4 at a depth-three forest: `C2x` is attached under the
deeply nested node `B2`. -/
theorem c4_witness :
    listHasId "B2" (loadPatterns c4DeepRows) = true
    ∧ listChildUnder "B2" "C2x"
        (insertPattern (loadPatterns c4DeepRows) c4DeepChild) = true :=
  ⟨by decide,
   c4_attach_under_declared_parent (loadPatterns c4DeepRows) c4DeepChild
     (by decide) (by decide)⟩

/-- C5: first-match-wins among siblings. If the sibling at position `i`
matches the message and every earlier sibling fails to match, then the
sibling loop hands the event to sibling `i` (returning its id, mutating
only it, all other siblings untouched), and the root-level loop likewise
updates exactly position `i` and reports a match — at every level, the
sibling declared earlier in configuration receives the event. -/
theorem c5_first_match_wins :
    ∀ (sibs : List EventPattern) (e : Event) (i : Nat),
      i < sibs.length →
      ((sibs.getD i dfltPattern).regEx.matchFn e.message).isSome = true →
      (∀ j, j < i → (sibs.getD j dfltPattern).regEx.matchFn e.message = none) →
      matchEventList sibs e
        = (sibs.take i
            ++ (matchEvent (sibs.getD i dfltPattern) e).1 :: sibs.drop (i + 1),
           some (sibs.getD i dfltPattern).patternId)
      ∧ (mainMatchList sibs e).1
        = sibs.take i
            ++ (matchEvent (sibs.getD i dfltPattern) e).1 :: sibs.drop (i + 1)
      ∧ ((mainMatchList sibs e).2).isSome = true
  | [], _, i, hlen, _, _ => absurd hlen (by simp)
  | p :: ps, e, 0, _, hm, _ => by
    rw [List.getD_cons_zero] at hm
    cases hmm : p.regEx.matchFn e.message with
    | none => rw [hmm] at hm; exact absurd hm (by simp)
    | some caps =>
      have hsp : ∃ path, selectPath p e = some path := by
        cases hx : selectPath p e with
        | none =>
          have h2 := (selectPath_none_iff p e).mp hx
          rw [hmm] at h2
          exact absurd h2 (by simp)
        | some pa => exact ⟨pa, rfl⟩
      obtain ⟨path, hpath⟩ := hsp
      have hme : matchEvent p e = (recordAt p path e, some (returnedId p path)) := by
        rw [matchEvent_spec p e, hpath]
      refine ⟨?_, ?_, ?_⟩
      · rw [matchEventList_cons, List.getD_cons_zero, hme]
        rfl
      · rw [mainMatchList_cons_matched p ps e caps hmm, List.getD_cons_zero, hme]
        by_cases hlen2 : p.subPatterns.length > 0
        · rw [if_pos hlen2]
          rfl
        · rw [if_neg hlen2]
          have hsubs : p.subPatterns = [] := List.length_eq_zero.mp (by omega)
          have hpth : path = [] := by
            rw [selectPath_some_shape p e caps hmm, hsubs, selectPathList_nil]
              at hpath
            exact (Option.some.inj hpath).symm
          subst hpth
          show addEvent p e caps :: ps
            = [] ++ addEvent p e ((p.regEx.matchFn e.message).getD []) :: ps
          rw [hmm]
          rfl
      · rw [mainMatchList_cons_matched p ps e caps hmm]
        by_cases hlen2 : p.subPatterns.length > 0
        · rw [if_pos hlen2, hme]
          rfl
        · rw [if_neg hlen2]
          rfl
  | p :: ps, e, i + 1, hlen, hm, hj => by
    have hp0 : p.regEx.matchFn e.message = none := by
      have h0 := hj 0 (by omega)
      rwa [List.getD_cons_zero] at h0
    have hme : matchEvent p e = (p, none) := by
      rw [matchEvent_spec p e, (selectPath_none_iff p e).mpr hp0]
    have hlen2 : i < ps.length := by
      simp only [List.length_cons] at hlen
      omega
    have hm2 : ((ps.getD i dfltPattern).regEx.matchFn e.message).isSome = true := by
      rwa [List.getD_cons_succ] at hm
    have hj2 : ∀ j, j < i →
        (ps.getD j dfltPattern).regEx.matchFn e.message = none := by
      intro j hjlt
      have h2 := hj (j + 1) (by omega)
      rwa [List.getD_cons_succ] at h2
    obtain ⟨ih1, ih2, ih3⟩ := c5_first_match_wins ps e i hlen2 hm2 hj2
    refine ⟨?_, ?_, ?_⟩
    · rw [matchEventList_cons, hme, ih1, List.getD_cons_succ]
      rfl
    · rw [mainMatchList_cons_nomatch p ps e hp0, ih2, List.getD_cons_succ]
      rfl
    · rw [mainMatchList_cons_nomatch p ps e hp0]
      exact ih3

/-- Witness for C5: two always-matching sibling roots; the earlier one
receives the event. -/
theorem c5_witness :
    (matchEventList [leafY, leafZ] evA
        = ([leafY, leafZ].take 0
            ++ (matchEvent ([leafY, leafZ].getD 0 dfltPattern) evA).1
              :: [leafY, leafZ].drop 1,
           some ([leafY, leafZ].getD 0 dfltPattern).patternId))
    ∧ (mainMatchList [leafY, leafZ] evA).1
        = [leafY, leafZ].take 0
            ++ (matchEvent ([leafY, leafZ].getD 0 dfltPattern) evA).1
              :: [leafY, leafZ].drop 1
    ∧ ((mainMatchList [leafY, leafZ] evA).2).isSome = true :=
  c5_first_match_wins [leafY, leafZ] evA 0 (by decide) (by decide)
    (fun j hj => absurd hj (Nat.not_lt_zero j))

/-- C6: with a type filter configured, an event of a different type code
is matched to no node and counted nowhere — the forest is returned
entirely unchanged and no node is reported matched. -/
theorem c6_type_filter_blocks :
    ∀ (t : Nat) (pats : List EventPattern) (e : Event),
      e.type ≠ t → mainMatchEvent (some t) pats e = (pats, none) := by
  intro t pats e h
  show (if e.type ≠ t then (pats, none) else mainMatchList pats e) = (pats, none)
  rw [if_pos h]

/-- Witness for C6: filter `1` against an event of type `0`. -/
theorem c6_witness : mainMatchEvent (some 1) wPats evA = (wPats, none) :=
  c6_type_filter_blocks 1 wPats evA (by decide)

/-- C7: recording an event at a node appends it to the node's events
(so `matchCount` grows by exactly one) and, for each named group of the
node's regex, inserts into that group's value set the captured substring,
defaulted to the placeholder `"-None-"` when the group did not
participate in the match. -/
theorem c7_record_event :
    ∀ (p : EventPattern) (e : Event) (caps : List (Option String)),
      p.groupNames = p.regEx.groupNames → p.groupNames.Nodup →
      p.groupValues.length = p.groupNames.length →
      caps.length = p.groupNames.length →
      (addEvent p e caps).events = p.events ++ [e]
      ∧ (addEvent p e caps).events.length = p.events.length + 1
      ∧ ∀ i, i < p.groupNames.length →
          (addEvent p e caps).groupValues.getD i []
            = setInsert (p.groupValues.getD i [])
                (groupValueOf (caps.getD i none)) := by
  intro p e caps hgn hnd hlv hlc
  refine ⟨addEvent_events p e caps, ?_, ?_⟩
  · rw [addEvent_events]
    simp
  · intro i hi
    rw [addEvent_groupValues, ← hgn]
    exact updateGroups_zip_getD p.groupNames caps p.groupValues hnd hlv hlc i hi

/-- Witness for C7 at a one-group node, with a participating capture. -/
theorem c7_witness :
    (addEvent leafG evA [some "v"]).events = leafG.events ++ [evA]
    ∧ (addEvent leafG evA [some "v"]).events.length = leafG.events.length + 1
    ∧ ∀ i, i < leafG.groupNames.length →
        (addEvent leafG evA [some "v"]).groupValues.getD i []
          = setInsert (leafG.groupValues.getD i [])
              (groupValueOf ([some "v"].getD i none)) :=
  c7_record_event leafG evA [some "v"] rfl (by decide) rfl rfl

/-- C8: value-set aggregation is idempotent — recording a second event
with the same captures leaves every group's distinct-value set exactly
as after the first recording. -/
theorem c8_value_set_idempotent :
    ∀ (p : EventPattern) (e1 e2 : Event) (caps : List (Option String)),
      (addEvent (addEvent p e1 caps) e2 caps).groupValues
        = (addEvent p e1 caps).groupValues := by
  intro p e1 e2 caps
  cases p with
  | node pid nm rx gns gvs par evs subs =>
    show updateGroups gns (updateGroups gns gvs (rx.groupNames.zip caps))
        (rx.groupNames.zip caps)
      = updateGroups gns gvs (rx.groupNames.zip caps)
    exact updateGroups_idem gns gvs (rx.groupNames.zip caps)

/-- C9: a node with no recorded events and no sub-patterns produces no
output in the default report, and is emitted once show-all-details mode
is enabled. -/
theorem c9_zero_count_leaf_report :
    ∀ (p : EventPattern), p.events = [] → p.subPatterns = [] →
      epToString false p = "" ∧ epToString true p ≠ "" := by
  intro p h1 h2
  cases p with
  | node pid nm rx gns gvs par evs subs =>
    have he : evs = [] := h1
    have hs : subs = [] := h2
    subst he
    subst hs
    constructor
    · rfl
    · intro hcontra
      have hval : epToString true (.node pid nm rx gns gvs par [] [])
          = "*** " ++ pad4 ([] : List Event).length ++ "x " ++ nm ++ " - "
            ++ rx.pattern ++ "\n" ++ groupLines true gvs gns 0
            ++ epListToString true [] := rfl
      rw [hval] at hcontra
      have hlen := congrArg String.length hcontra
      simp only [String.length_append] at hlen
      rw [show String.length "*** " = 4 from rfl,
        show String.length "" = 0 from rfl] at hlen
      omega

/-- Witness for C9 on a concrete zero-count childless node. -/
theorem c9_witness :
    epToString false quietNode = "" ∧ epToString true quietNode ≠ "" :=
  c9_zero_count_leaf_report quietNode rfl rfl

/-- C10: one event mutates at most one node. A filtered-out or wholly
unmatched event leaves the forest exactly unchanged; a matched event
leaves the recorded events and value sets of every node other than the
selected one untouched. -/
theorem c10_single_node_frame :
    ∀ (tf : Option Nat) (pats : List EventPattern) (e : Event),
      (selectEvent tf pats e = none → (mainMatchEvent tf pats e).1 = pats)
      ∧ ∀ path, selectEvent tf pats e = some path →
          ∀ q, q ≠ path →
            stateAt (mainMatchEvent tf pats e).1 q = stateAt pats q := by
  intro tf pats e
  constructor
  · intro h
    rw [mainMatchEvent_spec, h]
  · intro path h q hq
    rw [mainMatchEvent_spec, h]
    exact stateAt_recordAtF_frame pats path q e hq

/-- Witness for C10: the always-matching root records the event while
the untouched never-matching root keeps its state. -/
theorem c10_witness :
    selectEvent none wPats evA = some [1]
    ∧ stateAt (mainMatchEvent none wPats evA).1 [0] = stateAt wPats [0] :=
  ⟨by decide,
   (c10_single_node_frame none wPats evA).2 [1] (by decide) [0] (by decide)⟩

end ProcessEventLog
